import Mathlib

/-!
Shallow embedding of the spring-mesh simulator (`src/code/simulation.py`).

Modelling conventions:
* NumPy 2D arrays become total functions `ℕ → ℕ → ℝ` together with an
  explicitly carried shape `ny × nx` (exactly the shape data the code reads
  via `pos.shape`).  Cells outside the shape are never produced nor consumed
  by the translated loops.
* IEEE-754 double arithmetic is idealised as exact real arithmetic.
* The in-place nested loops of `_calculate_forces` are translated as folds
  over the very index lists that Python `range(1, n-1)` iterates, accumulating
  into the zero-initialised force array through single-cell writes.
* The global `CONFIG` dictionary (`FPS`, `DATAFRAME_DECIMALS`) and the
  `simulate` parameters are gathered in one configuration record.
* `np.round` rounds half to even; the Python `int()` conversion truncates toward zero.
  Both are modelled exactly on ℝ.
-/

/-- A 2D real grid, mirroring a NumPy `float64` array indexed `[i, j]`. -/
abbrev Grid : Type := ℕ → ℕ → ℝ

/-- The neighbor-offset list `displacements = [(0, -1), (-1, 0), (0, 1), (1, 0)]`
from `_calculate_forces`; the first component is added to the row index and the
second to the column index, as in `pos[i + dx, j + dy]`. -/
def displacements : List (ℤ × ℤ) := [(0, -1), (-1, 0), (0, 1), (1, 0)]

/-- Index arithmetic `i + d` of the stencil; the interior loops only ever use
it where `(i : ℤ) + d ≥ 0`. -/
def shiftIdx (i : ℕ) (d : ℤ) : ℕ := ((i : ℤ) + d).toNat

/-- Spring length `np.sqrt(particle_separation**2 + (pos[i,j] - pos[nb])**2)`. -/
noncomputable def springLength (d a b : ℝ) : ℝ := Real.sqrt (d ^ 2 + (a - b) ^ 2)

/-- The contribution of one neighbor,
`- elastic_constant * elongation * (pos[i,j] - pos[nb]) / length`
with `elongation = length - natural_length`. -/
noncomputable def springTerm (k L0 d a b : ℝ) : ℝ :=
  -k * (springLength d a b - L0) * (a - b) / springLength d a b

/-- Single-cell array write `forces[i, j] = v`, all other cells unchanged. -/
def update2 (g : Grid) (i j : ℕ) (v : ℝ) : Grid :=
  fun a b => if a = i ∧ b = j then v else g a b

/-- The innermost `for dx, dy in displacements` loop: accumulate the four
spring contributions into `forces[i, j]` one at a time. -/
noncomputable def addSprings (k L0 d : ℝ) (pos : Grid) (f : Grid) (i j : ℕ) : Grid :=
  displacements.foldl
    (fun g p =>
      update2 g i j (g i j + springTerm k L0 d (pos i j) (pos (shiftIdx i p.1) (shiftIdx j p.2))))
    f

/-- `_calculate_forces(pos, elastic_constant, natural_length, particle_separation)`:
the force array starts at zero and the double loop runs over
`range(1, ny - 1) × range(1, nx - 1)`. -/
noncomputable def _calculate_forces (k L0 d : ℝ) (ny nx : ℕ) (pos : Grid) : Grid :=
  (List.range' 1 (ny - 2)).foldl
    (fun f i => (List.range' 1 (nx - 2)).foldl (fun f j => addSprings k L0 d pos f i j) f)
    (fun _ _ => 0)

/-- The total stencil contribution at one interior cell: the four neighbor
terms in the order of the `displacements` list. -/
noncomputable def stencilSum (k L0 d : ℝ) (pos : Grid) (i j : ℕ) : ℝ :=
  springTerm k L0 d (pos i j) (pos i (j - 1))
    + springTerm k L0 d (pos i j) (pos (i - 1) j)
    + springTerm k L0 d (pos i j) (pos i (j + 1))
    + springTerm k L0 d (pos i j) (pos (i + 1) j)

/-- The inputs of `simulate` together with the global `CONFIG` values it reads
(`CONFIG["FPS"]` and `CONFIG["DATAFRAME_DECIMALS"]`).  `particle_types` holds
`0` for static particles and nonzero (in practice `1`) for dynamic ones; the
code masks with `particle_types == 0`. -/
structure SimConfig where
  ny : ℕ
  nx : ℕ
  masses : Grid
  initial_pos : Grid
  particle_types : ℕ → ℕ → ℕ
  elastic_constant : ℝ
  natural_length : ℝ
  particle_separation : ℝ
  timestep : ℝ
  n_steps : ℕ
  fps : ℝ
  decimals : ℕ

/-- One row of the preallocated history arrays: the scalar time and the
displacement and velocity grids of one step. -/
structure MeshState where
  time : ℝ
  pos : Grid
  vel : Grid

/-- The static-particle mask assignment `arr[particle_types == 0] = 0`:
cells whose type is `0` are forced to `0`, all others are kept. -/
def applyMask (types : ℕ → ℕ → ℕ) (g : Grid) : Grid :=
  fun i j => if types i j = 0 then 0 else g i j

/-- Elementwise `forces / masses` for a displacement grid `p`, i.e. the
acceleration grid the integrator computes from `_calculate_forces`. -/
noncomputable def accOf (cfg : SimConfig) (p : Grid) : Grid :=
  fun i j =>
    _calculate_forces cfg.elastic_constant cfg.natural_length cfg.particle_separation
      cfg.ny cfg.nx p i j / cfg.masses i j

/-- One iteration of the integration loop in `simulate`: force/acceleration on
the previous positions, position update, static mask, force/acceleration on
the new positions, velocity update, static mask, time update.  (In the source
the mask is written as `pos[:, particle_types == 0] = 0`, which re-zeroes the
static cells of every history row; rows other than the current one either
already hold `0` at static cells or are overwritten before being read, so the
per-step mask used here produces the identical history.) -/
noncomputable def stepState (cfg : SimConfig) (st : MeshState) : MeshState :=
  let acc_then := accOf cfg st.pos
  let pos' := applyMask cfg.particle_types
    (fun i j => st.pos i j + st.vel i j * cfg.timestep + 0.5 * acc_then i j * cfg.timestep ^ 2)
  let acc_now := accOf cfg pos'
  let vel' := applyMask cfg.particle_types
    (fun i j => st.vel i j + 0.5 * (acc_then i j + acc_now i j) * cfg.timestep)
  ⟨st.time + cfg.timestep, pos', vel'⟩

/-- The state history of `simulate`: row `0` is `time = 0`, `pos[0] =
initial_pos` with the static mask applied (`pos[:, particle_types == 0] = 0`
runs right after `pos[0] = initial_pos`), `vel[0] = 0`; each later row is one
loop iteration. -/
noncomputable def traj (cfg : SimConfig) : ℕ → MeshState
  | 0 => ⟨0, applyMask cfg.particle_types cfg.initial_pos, fun _ _ => 0⟩
  | n + 1 => stepState cfg (traj cfg n)

/-- The displacement history array `pos[s]`. -/
noncomputable def posHist (cfg : SimConfig) (s : ℕ) : Grid := (traj cfg s).pos

/-- The velocity history array `vel[s]`. -/
noncomputable def velHist (cfg : SimConfig) (s : ℕ) : Grid := (traj cfg s).vel

/-- The time array `time[s]`. -/
noncomputable def timeHist (cfg : SimConfig) (s : ℕ) : ℝ := (traj cfg s).time

/-- Round to the nearest integer, halves to even — the rounding that NumPy
`np.round` applies. -/
noncomputable def roundHE (x : ℝ) : ℤ :=
  if x - ⌊x⌋ < 1 / 2 then ⌊x⌋
  else if 1 / 2 < x - ⌊x⌋ then ⌊x⌋ + 1
  else if Even ⌊x⌋ then ⌊x⌋ else ⌊x⌋ + 1

/-- `np.round(x, dec)` / `pandas.DataFrame.round(decimals=dec)`. -/
noncomputable def roundTo (dec : ℕ) (x : ℝ) : ℝ := (roundHE (x * 10 ^ dec) : ℝ) / 10 ^ dec

/-- The Python conversion `int(x)`: truncation toward zero. -/
noncomputable def pyInt (x : ℝ) : ℤ := if 0 ≤ x then ⌊x⌋ else -⌊-x⌋

/-- `n_rows = int(CONFIG["FPS"] * time["Time"].to_numpy()[-1])`, computed on
the already rounded time column; the last entry of a length-`n_steps` array is
index `n_steps - 1`. -/
noncomputable def nRows (cfg : SimConfig) : ℕ :=
  (pyInt (cfg.fps * roundTo cfg.decimals (timeHist cfg (cfg.n_steps - 1)))).toNat

/-- `idx = (np.linspace(0, 1, n_rows, endpoint=False) * len(time)).astype(np.int64)`:
entry `k` is `⌊(k / n) * histLen⌋ = k * histLen / n` (natural division). -/
def sampleIndices (histLen n : ℕ) : List ℕ :=
  (List.range n).map (fun k => k * histLen / n)

/-- The exported artifacts of `simulate` (its `return time, pos`): the
resampled rounded time column and the resampled rounded displacement frames. -/
noncomputable def simulate (cfg : SimConfig) : List ℝ × List Grid :=
  let time : ℕ → ℝ := fun s => (traj cfg s).time
  let n_rows : ℕ := (pyInt (cfg.fps * roundTo cfg.decimals (time (cfg.n_steps - 1)))).toNat
  let idx : List ℕ := (List.range n_rows).map (fun k => k * cfg.n_steps / n_rows)
  (idx.map (fun s => roundTo cfg.decimals (time s)),
   idx.map (fun s => fun i j => roundTo cfg.decimals ((traj cfg s).pos i j)))

/-- The all-zero grid, used as a concrete sample input. -/
def zgrid : Grid := fun _ _ => 0

/-- Concrete all-static single-step configuration: a 3 × 3 mesh, every
particle static, one step. -/
noncomputable def cfgS : SimConfig :=
  ⟨3, 3, fun _ _ => 1, fun _ _ => 1, fun _ _ => 0, 1, 1, 1, 1, 1, 1, 0⟩

/-- Concrete all-dynamic configuration: a 1 × 1 mesh (so the force stencil is
empty), unit mass, initial displacement 1, two steps, unit timestep, FPS 1,
zero rounding decimals. -/
noncomputable def cfgW : SimConfig :=
  ⟨1, 1, fun _ _ => 1, fun _ _ => 1, fun _ _ => 1, 1, 1, 1, 1, 2, 1, 0⟩

theorem update2_same (g : Grid) (i j : ℕ) (v : ℝ) : update2 g i j v i j = v := by
  simp [update2]

theorem update2_ne (g : Grid) (i j a b : ℕ) (v : ℝ) (h : ¬(a = i ∧ b = j)) :
    update2 g i j v a b = g a b := by
  simp only [update2, if_neg h]

theorem shiftIdx_neg_one (i : ℕ) : shiftIdx i (-1) = i - 1 := by
  unfold shiftIdx; omega

theorem shiftIdx_zero (i : ℕ) : shiftIdx i 0 = i := by
  unfold shiftIdx; omega

theorem shiftIdx_one (i : ℕ) : shiftIdx i 1 = i + 1 := by
  unfold shiftIdx; omega

theorem addSprings_eq (k L0 d : ℝ) (pos f : Grid) (i j : ℕ) :
    addSprings k L0 d pos f i j = update2 f i j (f i j + stencilSum k L0 d pos i j) := by
  funext a b
  by_cases h : a = i ∧ b = j
  · obtain ⟨rfl, rfl⟩ := h
    simp only [addSprings, displacements, List.foldl_cons, List.foldl_nil,
      update2_same, update2, shiftIdx_neg_one, shiftIdx_zero, shiftIdx_one, stencilSum,
      and_self, if_true]
    ring
  · simp only [addSprings, displacements, List.foldl_cons, List.foldl_nil]
    rw [update2_ne _ _ _ _ _ _ h, update2_ne _ _ _ _ _ _ h, update2_ne _ _ _ _ _ _ h,
      update2_ne _ _ _ _ _ _ h, update2_ne _ _ _ _ _ _ h]

theorem foldl_addSprings_cols (k L0 d : ℝ) (pos : Grid) (i : ℕ) :
    ∀ (L : List ℕ), L.Nodup → ∀ (f : Grid) (a b : ℕ),
      (L.foldl (fun g jj => addSprings k L0 d pos g i jj) f) a b
        = if a = i ∧ b ∈ L then f a b + stencilSum k L0 d pos a b else f a b := by
  intro L
  induction L with
  | nil => intro _ f a b; simp
  | cons j L ih =>
    intro hnd f a b
    have hjL : j ∉ L := (List.nodup_cons.mp hnd).1
    rw [List.foldl_cons, ih (List.nodup_cons.mp hnd).2, addSprings_eq]
    by_cases ha : a = i
    · subst ha
      by_cases hbj : b = j
      · subst hbj
        simp [update2, hjL]
      · by_cases hbL : b ∈ L
        · simp [update2, hbj, hbL]
        · simp [update2, hbj, hbL]
    · simp [update2, ha]

theorem foldl_addSprings_rows (k L0 d : ℝ) (pos : Grid) (cols : List ℕ) (hcols : cols.Nodup) :
    ∀ (R : List ℕ), R.Nodup → ∀ (f : Grid) (a b : ℕ),
      (R.foldl (fun g ii => cols.foldl (fun g2 jj => addSprings k L0 d pos g2 ii jj) g) f) a b
        = if a ∈ R ∧ b ∈ cols then f a b + stencilSum k L0 d pos a b else f a b := by
  intro R
  induction R with
  | nil => intro _ f a b; simp
  | cons i R ih =>
    intro hnd f a b
    have hiR : i ∉ R := (List.nodup_cons.mp hnd).1
    rw [List.foldl_cons, ih (List.nodup_cons.mp hnd).2,
      foldl_addSprings_cols k L0 d pos i cols hcols f a b]
    by_cases hai : a = i
    · subst hai
      by_cases hbc : b ∈ cols
      · simp [hiR, hbc]
      · simp [hbc]
    · by_cases haR : a ∈ R <;> by_cases hbc : b ∈ cols <;> simp [hai, haR, hbc]

theorem calculate_forces_eq (k L0 d : ℝ) (ny nx : ℕ) (pos : Grid) (a b : ℕ) :
    _calculate_forces k L0 d ny nx pos a b
      = if a ∈ List.range' 1 (ny - 2) ∧ b ∈ List.range' 1 (nx - 2)
        then stencilSum k L0 d pos a b else 0 := by
  unfold _calculate_forces
  rw [foldl_addSprings_rows k L0 d pos (List.range' 1 (nx - 2)) (List.nodup_range' 1 (nx - 2))
    (List.range' 1 (ny - 2)) (List.nodup_range' 1 (ny - 2)) (fun _ _ => 0) a b]
  simp

theorem roundHE_intCast (n : ℤ) : roundHE (n : ℝ) = n := by
  unfold roundHE
  rw [Int.floor_intCast]
  norm_num

theorem roundTo_intCast (dec : ℕ) (n : ℤ) : roundTo dec (n : ℝ) = n := by
  unfold roundTo
  have h : ((n : ℝ) * 10 ^ dec) = ((n * 10 ^ dec : ℤ) : ℝ) := by push_cast; ring
  rw [h, roundHE_intCast]
  have h10 : ((10 : ℝ) ^ dec) ≠ 0 := by positivity
  push_cast
  field_simp

theorem roundTo_zero (dec : ℕ) : roundTo dec 0 = 0 := by
  have h := roundTo_intCast dec 0
  simpa using h

theorem roundTo_one (dec : ℕ) : roundTo dec 1 = 1 := by
  have h := roundTo_intCast dec 1
  simpa using h

theorem pyInt_zero : pyInt 0 = 0 := by
  norm_num [pyInt]

theorem pyInt_one : pyInt 1 = 1 := by
  norm_num [pyInt]

theorem simulate_eq (cfg : SimConfig) :
    simulate cfg
      = ((sampleIndices cfg.n_steps (nRows cfg)).map
          (fun s => roundTo cfg.decimals (timeHist cfg s)),
         (sampleIndices cfg.n_steps (nRows cfg)).map
          (fun s => fun i j => roundTo cfg.decimals (posHist cfg s i j))) := rfl

theorem static_cell_zero (cfg : SimConfig) (i j : ℕ) (h : cfg.particle_types i j = 0) (s : ℕ) :
    posHist cfg s i j = 0 ∧ velHist cfg s i j = 0 := by
  cases s with
  | zero =>
    refine ⟨?_, rfl⟩
    simp [posHist, traj, applyMask, h]
  | succ n =>
    constructor
    · simp [posHist, traj, stepState, applyMask, h]
    · simp [velHist, traj, stepState, applyMask, h]

/-- Claim C3: for every displacement grid of shape `ny × nx`, the force grid
returned by `_calculate_forces` equals, at each interior cell
(`1 ≤ i ≤ ny - 2`, `1 ≤ j ≤ nx - 2`), the sum over the four axis neighbors of
`-k * (length - L0) * (pos[i,j] - pos[nb]) / length` with
`length = sqrt(d² + (pos[i,j] - pos[nb])²)`, and equals `0` at every border
cell (`i ∈ {0, ny-1}` or `j ∈ {0, nx-1}`). -/
theorem forces_stencil (k L0 d : ℝ) (ny nx : ℕ) (pos : Grid) (i j : ℕ) :
    (1 ≤ i → i ≤ ny - 2 → 1 ≤ j → j ≤ nx - 2 →
      _calculate_forces k L0 d ny nx pos i j
        = springTerm k L0 d (pos i j) (pos i (j - 1))
          + springTerm k L0 d (pos i j) (pos (i - 1) j)
          + springTerm k L0 d (pos i j) (pos i (j + 1))
          + springTerm k L0 d (pos i j) (pos (i + 1) j))
    ∧ ((i = 0 ∨ i = ny - 1 ∨ j = 0 ∨ j = nx - 1) →
      _calculate_forces k L0 d ny nx pos i j = 0) := by
  constructor
  · intro h1 h2 h3 h4
    rw [calculate_forces_eq, if_pos]
    · rfl
    · constructor <;> rw [List.mem_range'_1] <;> omega
  · intro hb
    rw [calculate_forces_eq, if_neg]
    rintro ⟨hi, hj⟩
    rw [List.mem_range'_1] at hi hj
    rcases hb with h | h | h | h <;> omega

/-- Witness for C3: on a concrete 3 × 3 zero grid, cell (1, 1) is interior and
receives the four-term stencil sum, and cell (0, 0) is a border cell and
receives force 0. -/
theorem forces_stencil_witness :
    ((1 : ℕ) ≤ 1 ∧ (1 : ℕ) ≤ 3 - 2)
    ∧ _calculate_forces 1 1 1 3 3 zgrid 1 1
        = springTerm 1 1 1 (zgrid 1 1) (zgrid 1 (1 - 1))
          + springTerm 1 1 1 (zgrid 1 1) (zgrid (1 - 1) 1)
          + springTerm 1 1 1 (zgrid 1 1) (zgrid 1 (1 + 1))
          + springTerm 1 1 1 (zgrid 1 1) (zgrid (1 + 1) 1)
    ∧ _calculate_forces 1 1 1 3 3 zgrid 0 0 = 0 :=
  ⟨⟨by decide, by decide⟩,
   (forces_stencil 1 1 1 3 3 zgrid 1 1).1 (by decide) (by decide) (by decide) (by decide),
   (forces_stencil 1 1 1 3 3 zgrid 0 0).2 (Or.inl rfl)⟩

/-- Claim C7: with particle separation `d > 0`, the divisor of every division
performed by the force calculator — the spring length
`sqrt(d² + (pos[i,j] - pos[nb])²)`, the sole denominator in `springTerm` —
is at least `d`, hence nonzero; the division-by-zero case is unreachable. -/
theorem spring_length_nonzero (d a b : ℝ) (hd : 0 < d) :
    d ≤ springLength d a b ∧ springLength d a b ≠ 0 := by
  have h1 : d ≤ springLength d a b := by
    unfold springLength
    calc d = Real.sqrt (d ^ 2) := by rw [Real.sqrt_sq hd.le]
    _ ≤ Real.sqrt (d ^ 2 + (a - b) ^ 2) :=
        Real.sqrt_le_sqrt (le_add_of_nonneg_right (sq_nonneg _))
  exact ⟨h1, ne_of_gt (lt_of_lt_of_le hd h1)⟩

/-- Witness for C7: at `d = 1` and equal endpoint displacements the spring
length is bounded below by 1 and nonzero. -/
theorem spring_length_nonzero_witness :
    (0 : ℝ) < 1 ∧ ((1 : ℝ) ≤ springLength 1 0 0 ∧ springLength 1 0 0 ≠ 0) :=
  ⟨by norm_num, spring_length_nonzero 1 0 0 (by norm_num)⟩

/-- Claim C1: for every configuration, every step index below `n_steps`, and
every cell whose type marks it static (`particle_types[i,j] == 0`), the
displacement and velocity histories hold exactly `0`. -/
theorem static_particle_invariant (cfg : SimConfig) (s i j : ℕ)
    (hs : s < cfg.n_steps) (h : cfg.particle_types i j = 0) :
    posHist cfg s i j = 0 ∧ velHist cfg s i j = 0 :=
  static_cell_zero cfg i j h s

/-- Witness for C1: in the concrete all-static configuration, the cell (0, 0)
is static at step 0 and both histories hold 0 there. -/
theorem static_particle_invariant_witness :
    (0 < cfgS.n_steps ∧ cfgS.particle_types 0 0 = 0)
    ∧ (posHist cfgS 0 0 0 = 0 ∧ velHist cfgS 0 0 0 = 0) :=
  ⟨⟨by decide, rfl⟩, static_particle_invariant cfgS 0 0 0 (by decide) rfl⟩

/-- Claim C2: the integrator is the two-force-evaluation velocity-Verlet
scheme: `pos[0]` is the masked initial displacement, `vel[0] = 0`,
`time[0] = 0`; and for every step `s + 1 < n_steps`, the new position uses the
acceleration on the previous positions, the static mask is applied, the
acceleration is re-evaluated on the updated positions, the new velocity uses
the average of the two accelerations, the static mask is applied, and the time
advances by `dt`. -/
theorem velocity_verlet_step (cfg : SimConfig) (s : ℕ) (hs : s + 1 < cfg.n_steps) :
    (posHist cfg 0 = applyMask cfg.particle_types cfg.initial_pos
      ∧ velHist cfg 0 = (fun _ _ => 0)
      ∧ timeHist cfg 0 = 0)
    ∧ posHist cfg (s + 1)
        = applyMask cfg.particle_types
            (fun i j => posHist cfg s i j + velHist cfg s i j * cfg.timestep
              + 0.5 * accOf cfg (posHist cfg s) i j * cfg.timestep ^ 2)
    ∧ velHist cfg (s + 1)
        = applyMask cfg.particle_types
            (fun i j => velHist cfg s i j
              + 0.5 * (accOf cfg (posHist cfg s) i j + accOf cfg (posHist cfg (s + 1)) i j)
                * cfg.timestep)
    ∧ timeHist cfg (s + 1) = timeHist cfg s + cfg.timestep :=
  ⟨⟨rfl, rfl, rfl⟩, rfl, rfl, rfl⟩

/-- Witness for C2: the step equations instantiated at the concrete two-step
configuration and its first transition. -/
theorem velocity_verlet_step_witness :
    0 + 1 < cfgW.n_steps
    ∧ ((posHist cfgW 0 = applyMask cfgW.particle_types cfgW.initial_pos
        ∧ velHist cfgW 0 = (fun _ _ => 0)
        ∧ timeHist cfgW 0 = 0)
      ∧ posHist cfgW (0 + 1)
          = applyMask cfgW.particle_types
              (fun i j => posHist cfgW 0 i j + velHist cfgW 0 i j * cfgW.timestep
                + 0.5 * accOf cfgW (posHist cfgW 0) i j * cfgW.timestep ^ 2)
      ∧ velHist cfgW (0 + 1)
          = applyMask cfgW.particle_types
              (fun i j => velHist cfgW 0 i j
                + 0.5 * (accOf cfgW (posHist cfgW 0) i j + accOf cfgW (posHist cfgW (0 + 1)) i j)
                  * cfgW.timestep)
      ∧ timeHist cfgW (0 + 1) = timeHist cfgW 0 + cfgW.timestep) :=
  ⟨by decide, velocity_verlet_step cfgW 0 (by decide)⟩

/-- Claim C9: if every particle is static, the displacement grid at every step
equals the initial displacement grid of the run (the configured initial
displacement with the static mask applied, per the step-0 initial condition),
unchanged. -/
theorem all_static_unchanged (cfg : SimConfig) (h : ∀ i j, cfg.particle_types i j = 0)
    (s : ℕ) (hs : s < cfg.n_steps) :
    posHist cfg s = posHist cfg 0
      ∧ posHist cfg 0 = applyMask cfg.particle_types cfg.initial_pos := by
  refine ⟨?_, rfl⟩
  funext i j
  rw [(static_cell_zero cfg i j (h i j) s).1, (static_cell_zero cfg i j (h i j) 0).1]

/-- Witness for C9: the all-static configuration at step 0. -/
theorem all_static_unchanged_witness :
    ((∀ i j, cfgS.particle_types i j = 0) ∧ 0 < cfgS.n_steps)
    ∧ (posHist cfgS 0 = posHist cfgS 0
      ∧ posHist cfgS 0 = applyMask cfgS.particle_types cfgS.initial_pos) :=
  ⟨⟨fun _ _ => rfl, by decide⟩, all_static_unchanged cfgS (fun _ _ => rfl) 0 (by decide)⟩

/-- Claim C4: the exporter emits exactly `nRows` frames (for both the time
column and the displacement frames), and every sample index
`⌊(k / n) * historyLength⌋` with `k < n` stays strictly below the history
length (for any `n`, in particular when `nRows` exceeds the history length);
indices are naturals, so `0 ≤ idx[k]` holds by construction. -/
theorem resampling_bounds (cfg : SimConfig) (h : 1 ≤ cfg.n_steps) :
    (simulate cfg).1.length = nRows cfg
    ∧ (simulate cfg).2.length = nRows cfg
    ∧ ∀ n : ℕ, ∀ i ∈ sampleIndices cfg.n_steps n, i < cfg.n_steps := by
  refine ⟨?_, ?_, ?_⟩
  · rw [simulate_eq]; simp [sampleIndices]
  · rw [simulate_eq]; simp [sampleIndices]
  · intro n i hi
    simp only [sampleIndices, List.mem_map, List.mem_range] at hi
    obtain ⟨k, hk, rfl⟩ := hi
    exact Nat.div_lt_of_lt_mul (by nlinarith)

/-- Witness for C4: the concrete two-step configuration has a nonempty
history and satisfies the frame-count and index-bound conclusions. -/
theorem resampling_bounds_witness :
    1 ≤ cfgW.n_steps
    ∧ ((simulate cfgW).1.length = nRows cfgW
      ∧ (simulate cfgW).2.length = nRows cfgW
      ∧ ∀ n : ℕ, ∀ i ∈ sampleIndices cfgW.n_steps n, i < cfgW.n_steps) :=
  ⟨by decide, resampling_bounds cfgW (by decide)⟩

/-- Claim C5: whenever `nRows = 0` the exporter returns an empty but
well-formed output (empty time column and empty frame list); and a single-step
run forces `nRows = 0`, since `time[0] = 0` makes `int(FPS * 0) = 0`. -/
theorem degenerate_resampling (cfg : SimConfig) :
    (nRows cfg = 0 → (simulate cfg).1 = [] ∧ (simulate cfg).2 = [])
    ∧ (cfg.n_steps = 1 → nRows cfg = 0) := by
  constructor
  · intro h
    rw [simulate_eq]
    constructor <;> simp [h, sampleIndices]
  · intro h
    simp [nRows, h, timeHist, traj, roundTo_zero, pyInt_zero]

/-- Witness for C5: the concrete single-step configuration produces
`nRows = 0` and an empty exported pair. -/
theorem degenerate_resampling_witness :
    cfgS.n_steps = 1 ∧ nRows cfgS = 0
    ∧ (simulate cfgS).1 = [] ∧ (simulate cfgS).2 = [] := by
  have h0 : nRows cfgS = 0 := (degenerate_resampling cfgS).2 rfl
  exact ⟨rfl, h0, (degenerate_resampling cfgS).1 h0⟩

/-- Claim C8 (amended): `simulate` returns a pair — the resampled rounded time
column and the resampled rounded displacement frames, the latter with exactly
`nRows` entries; the velocity history is computed internally but is not part
of the returned value. -/
theorem simulate_returns_time_and_displacement (cfg : SimConfig) :
    (simulate cfg).1
        = (sampleIndices cfg.n_steps (nRows cfg)).map
            (fun s => roundTo cfg.decimals (timeHist cfg s))
    ∧ (simulate cfg).2
        = (sampleIndices cfg.n_steps (nRows cfg)).map
            (fun s => fun i j => roundTo cfg.decimals (posHist cfg s i j))
    ∧ (simulate cfg).2.length = nRows cfg := by
  refine ⟨rfl, rfl, ?_⟩
  rw [simulate_eq]
  simp [sampleIndices]

/-- Counterexample for C8 as stated: on the concrete two-step configuration
the run exports one frame, and the exported frame list is the (rounded,
resampled) displacement history, which differs from the correspondingly
resampled velocity history — so the velocity history is not a component of
the result, which is a pair, not a triple. -/
theorem simulate_omits_velocity_history :
    (simulate cfgW).2
      ≠ (sampleIndices cfgW.n_steps (nRows cfgW)).map
          (fun s => fun i j => roundTo cfgW.decimals (velHist cfgW s i j)) := by
  have ht : timeHist cfgW 1 = 1 := by
    simp [timeHist, traj, stepState, cfgW]
  have hn : nRows cfgW = 1 := by
    unfold nRows
    rw [show cfgW.n_steps - 1 = 1 from rfl, ht, roundTo_one,
      show cfgW.fps = 1 from rfl, mul_one, pyInt_one]
    rfl
  intro hEq
  rw [simulate_eq, hn] at hEq
  rw [show sampleIndices cfgW.n_steps 1 = [0] from rfl] at hEq
  simp only [List.map_cons, List.map_nil, List.cons.injEq, and_true] at hEq
  have h00 := congrFun (congrFun hEq 0) 0
  have hp : posHist cfgW 0 0 0 = 1 := by
    simp [posHist, traj, applyMask, cfgW]
  have hv : velHist cfgW 0 0 0 = 0 := rfl
  rw [hp, hv, roundTo_one, roundTo_zero] at h00
  exact one_ne_zero h00
